import Mathlib

/-!
Verification development for the AutoHeal agent system.

We give a shallow embedding of the core components described in the
design document: the Issue Ledger merge/reopen logic and status updates
(`src/backend/src/agents/orchestrator.js`, the solver section's
`updateIssueStatus`), the healing loop with its iteration ceiling, the
Docker sandbox runner `runTestsInSandbox` (`docker.js`), the Python
test-verdict override of the legacy agent's `runTests`, the solver batch
`runSolver`, and the final commit-and-push phase.  External effects
(Docker, git, the LLM oracles, the filesystem) are modelled as explicit
world/oracle records whose fields give the outcome of each effectful
step; the control flow around them is translated directly from the
JavaScript source.
-/

/-- Issue status strings used in issues_log.json. -/
inductive Status where
  | OPEN
  | FIXED
  | FAILED_FILE_NOT_FOUND
  | FAILED_GENERATION
  deriving DecidableEq, Repr

/-- An entry of issues_log.json (the Issue Ledger). -/
structure Issue where
  file : String
  type : String
  line : Nat
  description : String
  status : Status
  discoveredAt : Nat
  fixedAt : Option String
  deriving DecidableEq, Repr

/-- An issue as returned by the Diagnostic Oracle (analyzeOutput). -/
structure Discovered where
  file : String
  type : String
  line : Nat
  description : String
  deriving DecidableEq, Repr

/-- The identity key string a ledger entry is compared by:
JS template literal file::type::line (orchestrator.js). -/
def issueKey (e : Issue) : String :=
  e.file ++ "::" ++ e.type ++ "::" ++ toString e.line

/-- The identity key string of a discovered issue. -/
def discKey (d : Discovered) : String :=
  d.file ++ "::" ++ d.type ++ "::" ++ toString d.line

/-- The two keys tried for the reopen check: the exact key and the
line-0 fallback key (orchestrator.js line 144). -/
def discKeys (d : Discovered) : List String :=
  [discKey d, d.file ++ "::" ++ d.type ++ "::0"]

/-- The note appended to a reopened issue's description
(orchestrator.js line 155). -/
def reopenNote : String :=
  " [NOTE: Previous fix failed. Try a different approach.]"

/-- In-place mutation applied to a rediscovered FIXED entry:
status becomes OPEN and the regression note is appended. -/
def reopenIssue (e : Issue) : Issue :=
  { e with status := Status.OPEN, description := e.description ++ reopenNote }

/-- The predicate of the find call at orchestrator.js lines 147-149:
the entry's key is the discovered issue's key or its line-0 fallback,
and the entry is currently FIXED. -/
def matchesFixed (d : Discovered) (e : Issue) : Bool :=
  decide (issueKey e ∈ discKeys d) && decide (e.status = Status.FIXED)

/-- currentLog.issues.find(...) followed by in-place mutation of the
found entry: returns the mutated entry together with the ledger in which
the first FIXED match has been replaced by its reopened version. -/
def reopenScan (d : Discovered) : List Issue → Option (Issue × List Issue)
  | [] => none
  | e :: rest =>
    if matchesFixed d e then some (reopenIssue e, reopenIssue e :: rest)
    else
      match reopenScan d rest with
      | some (r, rest') => some (r, e :: rest')
      | none => none

/-- State threaded through the discovered-issue loop of the merge
(orchestrator.js lines 140-161): the ledger being mutated, the
newIssues list and the reOpenedIssues list. -/
structure MergeState where
  issues : List Issue
  newIssues : List Discovered
  reopened : List Issue
  deriving DecidableEq, Repr

/-- The for-loop over discovered issues (orchestrator.js lines 143-161).
addressed is the set of keys of non-OPEN entries, computed once before
the loop (lines 126-130). -/
def mergePass (addressed : List String) : MergeState → List Discovered → MergeState
  | st, [] => st
  | st, d :: ds =>
    match reopenScan d st.issues with
    | some (r, issues') =>
        mergePass addressed
          { issues := issues', newIssues := st.newIssues, reopened := st.reopened ++ [r] } ds
    | none =>
        if discKey d ∈ addressed then mergePass addressed st ds
        else mergePass addressed { st with newIssues := st.newIssues ++ [d] } ds

/-- The ledger entry appended for a truly new discovered issue
(orchestrator.js line 190): spread of the discovered fields with status
OPEN and discoveredAt set to the current iteration; no fixedAt. -/
def newIssue (d : Discovered) (iter : Nat) : Issue :=
  { file := d.file, type := d.type, line := d.line, description := d.description,
    status := Status.OPEN, discoveredAt := iter, fixedAt := none }

/-- The append loop of orchestrator.js lines 187-192.  existingKeys is
computed once from the ledger before the loop and is NOT updated as
entries are appended, exactly as in the source. -/
def appendNew (iter : Nat) (existingKeys : List String) :
    List Issue → List Discovered → List Issue
  | issues, [] => issues
  | issues, n :: ns =>
    if discKey n ∈ existingKeys then appendNew iter existingKeys issues ns
    else appendNew iter existingKeys (issues ++ [newIssue n iter]) ns

/-- One merge of a discovered batch into the ledger at iteration iter:
steps C, D and E of the healing loop body (orchestrator.js 124-193). -/
def mergeStep (iter : Nat) (ledger : List Issue) (discovered : List Discovered) :
    MergeState :=
  let addressed := (ledger.filter (fun e => decide (e.status ≠ Status.OPEN))).map issueKey
  let st := mergePass addressed ⟨ledger, [], []⟩ discovered
  let existingKeys := st.issues.map issueKey
  { st with issues := appendNew iter existingKeys st.issues st.newIssues }

/-- A sequence of merges (one per iteration), acting on the ledger. -/
def mergeMany (ledger : List Issue) : List (Nat × List Discovered) → List Issue
  | [] => ledger
  | b :: bs => mergeMany (mergeStep b.1 ledger b.2).issues bs

/-- updateIssueStatus of the solver (orchestrator.js solver section,
lines 331-344): find the first entry with exactly matching file, type
and line; set its status to the new status and stamp fixedAt with the
current timestamp, unconditionally.  If no entry matches, the log is
unchanged. -/
def updateIssueStatus (log : List Issue) (f t : String) (l : Nat)
    (newStatus : Status) (now : String) : List Issue :=
  match log with
  | [] => []
  | e :: rest =>
    if e.file = f ∧ e.type = t ∧ e.line = l then
      { e with status := newStatus, fixedAt := some now } :: rest
    else e :: updateIssueStatus rest f t l newStatus now

/-- Result of one sandbox execution: {success, output}
(docker.js runTestsInSandbox return type). -/
structure SandboxResult where
  success : Bool
  output : String
  deriving DecidableEq, Repr

/-- Outcomes of the effectful steps inside runTestsInSandbox, supplied
by the environment: each Option String field is some message when the
corresponding Docker call throws.  exitCode and execOutput are the
inspect result and the demuxed combined stream when exec completes. -/
structure SandboxWorld where
  createErr : Option String
  startErr : Option String
  transferErr : Option String
  execErr : Option String
  exitCode : Int
  execOutput : String
  cleanupErr : Option String
  deriving Repr

/-- What one call to runTestsInSandbox does, beyond its return value:
whether the container object was ever assigned, how many times the
stop-and-remove teardown was invoked, and how many teardown errors were
caught and logged. -/
structure SandboxOutcome where
  result : SandboxResult
  created : Bool
  teardowns : Nat
  cleanupFailuresLogged : Nat
  deriving Repr

/-- The catch branch message of docker.js line 78. -/
def sandboxFailMsg (m : String) : String := "Sandbox execution failed: " ++ m

/-- runTestsInSandbox (docker.js lines 17-89): try/catch/finally around
create, start, putArchive, exec.  Any thrown step lands in the catch,
which returns a failure result; the finally block tears the container
down when (and only when) it was assigned, and swallows teardown
errors. -/
def runTestsInSandbox (w : SandboxWorld) : SandboxOutcome :=
  match w.createErr with
  | some m =>
    { result := ⟨false, sandboxFailMsg m⟩, created := false, teardowns := 0,
      cleanupFailuresLogged := 0 }
  | none =>
    let logged := match w.cleanupErr with | some _ => 1 | none => 0
    let body : SandboxResult :=
      match w.startErr with
      | some m => ⟨false, sandboxFailMsg m⟩
      | none =>
        match w.transferErr with
        | some m => ⟨false, sandboxFailMsg m⟩
        | none =>
          match w.execErr with
          | some m => ⟨false, sandboxFailMsg m⟩
          | none => ⟨decide (w.exitCode = 0), w.execOutput⟩
    { result := body, created := true, teardowns := 1, cleanupFailuresLogged := logged }

/-- chars starts with pat (character-wise). -/
def charsStartWith : List Char → List Char → Bool
  | _, [] => true
  | [], _ :: _ => false
  | c :: cs, p :: ps => c == p && charsStartWith cs ps

/-- chars contains pat as a contiguous run. -/
def charsInclude : List Char → List Char → Bool
  | [], pat => pat.isEmpty
  | c :: cs, pat => charsStartWith (c :: cs) pat || charsInclude cs pat

/-- JS String.prototype.includes. -/
def strIncludes (s pat : String) : Bool := charsInclude s.data pat.data

/-- The Python branch verdict of the legacy agent's runTests
(agent source, lines 84-87): the passed flag is forced to false when
the sandbox run failed OR its output contains one of the markers
SyntaxError, E999 or F401, even if the exit code was zero. -/
def pythonRunPassed (r : SandboxResult) : Bool :=
  if r.success = false ∨ strIncludes r.output "SyntaxError" = true
      ∨ strIncludes r.output "E999" = true ∨ strIncludes r.output "F401" = true
  then false
  else true

/-- The command the canonical Python engine runs (engines/python.js):
flake8 is invoked with the F401 selector before pytest, chained
with the shell AND operator; the engine's success comes solely from
runTestsInSandbox. -/
def enginePythonTestCmd : String :=
  "pip install -r requirements.txt flake8 pytest && flake8 . --count --select=E9,F63,F7,F82,F401 --show-source --statistics && pytest"

/-- Outcomes of the effectful steps of one solver repair attempt:
file existence, file read, the repair-oracle invocation (LLM call plus
fence stripping) and the file write.  Except.error models a thrown
exception, which the solver's per-issue catch turns into
FAILED_GENERATION. -/
structure SolverWorld where
  fileExists : String → Bool
  readFile : String → Except String String
  invoke : Issue → String → Except String String
  writeFile : String → String → Except String Unit

/-- An entry of runSolver's fixesApplied list (orchestrator.js solver
section, lines 404-410). -/
structure AppliedFix where
  file : String
  type : String
  description : String
  line : Nat
  status : String
  deriving DecidableEq, Repr

/-- runSolver (orchestrator.js solver section, lines 324-419): walk the
open issues in order; a missing target file marks the issue
FAILED_FILE_NOT_FOUND and continues; any failure while reading,
invoking the repair oracle or writing marks it FAILED_GENERATION and
continues; otherwise the file is overwritten, the issue is marked FIXED
and an applied-fix entry is recorded.  Returns the updated log and the
fixesApplied list. -/
def runSolver (w : SolverWorld) : List Issue → List Issue → String →
    List Issue × List AppliedFix
  | [], log, _ => (log, [])
  | issue :: rest, log, now =>
    if w.fileExists issue.file = false then
      runSolver w rest
        (updateIssueStatus log issue.file issue.type issue.line
          Status.FAILED_FILE_NOT_FOUND now) now
    else
      match w.readFile issue.file with
      | Except.error _ =>
        runSolver w rest
          (updateIssueStatus log issue.file issue.type issue.line
            Status.FAILED_GENERATION now) now
      | Except.ok content =>
        match w.invoke issue content with
        | Except.error _ =>
          runSolver w rest
            (updateIssueStatus log issue.file issue.type issue.line
              Status.FAILED_GENERATION now) now
        | Except.ok fixedContent =>
          match w.writeFile issue.file fixedContent with
          | Except.error _ =>
            runSolver w rest
              (updateIssueStatus log issue.file issue.type issue.line
                Status.FAILED_GENERATION now) now
          | Except.ok _ =>
            let out := runSolver w rest
              (updateIssueStatus log issue.file issue.type issue.line
                Status.FIXED now) now
            (out.1,
             { file := issue.file, type := issue.type,
               description := issue.description, line := issue.line,
               status := "APPLIED" } :: out.2)

/-- Result of engine.run as consumed by the healing loop. -/
structure TestResult where
  success : Bool
  output : String
  deriving DecidableEq, Repr

/-- The external collaborators of one healing run, indexed by the
iteration number: the engine's test run (Sandbox Runtime), the
Diagnostic Oracle (analyzeOutput) applied to the captured output, the
per-iteration solver effect outcomes and the timestamp source. -/
structure LoopOracle where
  test : Nat → TestResult
  discover : Nat → String → List Discovered
  solver : Nat → SolverWorld
  now : Nat → String

/-- The mutable state of one healing run (Run Session). -/
structure RunState where
  ledger : List Issue
  iterations : Nat
  cycles : Nat
  isSuccess : Bool
  lastOutput : String
  allFixes : List AppliedFix

/-- The iteration ceiling MAX_ITER of orchestrator.js line 102. -/
def MAX_ITER : Nat := 6

/-- The index sequence of the for loop: iterRange s n = [s, s+1, ..., s+n-1]. -/
def iterRange : Nat → Nat → List Nat
  | _, 0 => []
  | s, n + 1 => s :: iterRange (s + 1) n

/-- The healing loop body (orchestrator.js lines 105-234), iterating
over the remaining loop indices.  Each cycle: run tests (recording the
iteration counter and incrementing the cycle count), break on success,
merge the diagnostic findings, break when nothing is new or reopened,
break at the ceiling, otherwise run the solver over the OPEN issues and
continue with the next index. -/
def healIters (o : LoopOracle) : List Nat → RunState → RunState
  | [], st => st
  | i :: rest, st =>
    let tr := o.test i
    let st1 := { st with iterations := i, cycles := st.cycles + 1, lastOutput := tr.output }
    if tr.success then { st1 with isSuccess := true }
    else
      let m := mergeStep i st1.ledger (o.discover i tr.output)
      if m.newIssues = [] ∧ m.reopened = [] then st1
      else
        let st2 := { st1 with ledger := m.issues }
        if i = MAX_ITER then st2
        else
          let opens := st2.ledger.filter (fun e => decide (e.status = Status.OPEN))
          let sr := runSolver (o.solver i) opens st2.ledger (o.now i)
          healIters o rest { st2 with ledger := sr.1, allFixes := st2.allFixes ++ sr.2 }

/-- The Run Session at the start of the healing loop: the auditor
initializes issues_log.json with an empty issues list, and the
orchestrator starts with iterations 0, no fixes and no success. -/
def initState : RunState :=
  { ledger := [], iterations := 0, cycles := 0, isSuccess := false,
    lastOutput := "", allFixes := [] }

/-- The healing loop: for i from 1 to MAX_ITER (orchestrator.js line 105). -/
def healLoop (o : LoopOracle) (st : RunState) : RunState :=
  healIters o (iterRange 1 MAX_ITER) st

/-- Outcomes of the git operations of the final phase: the combined
add-and-commit call per file and message, and the push result. -/
structure GitWorld where
  addAndCommit : String → String → Except String Unit
  pushResult : Except String Unit

/-- The commit message built for one fixed issue
(orchestrator.js line 85): type, file and the description truncated to
60 characters. -/
def commitMsg (e : Issue) : String :=
  "[AI-AGENT] Fix " ++ e.type ++ " in " ++ e.file ++ ": " ++ (e.description.take 60)

/-- An entry of the committed list (orchestrator.js line 87). -/
structure CommittedFix where
  file : String
  type : String
  line : Nat
  description : String
  commitMessage : String
  statusLabel : String
  deriving DecidableEq, Repr

/-- commitFixes (orchestrator.js lines 80-96): one add-and-commit per
fixed issue; a commit error is caught and the issue is skipped (logged
when it is not the nothing-to-commit case); the loop always continues. -/
def commitFixes (g : GitWorld) : List Issue → List CommittedFix
  | [] => []
  | e :: rest =>
    match g.addAndCommit e.file (commitMsg e) with
    | Except.ok _ =>
      { file := e.file, type := e.type, line := e.line,
        description := e.description, commitMessage := commitMsg e,
        statusLabel := "Fixed" } :: commitFixes g rest
    | Except.error _ => commitFixes g rest

/-- The terminal report written for the frontend by phase 4.
pushAttempted records whether the push call was made at all (the
else branch of the guard performs neither commit nor push); pushOk is
whether an attempted push succeeded. -/
structure FinalReport where
  status : String
  committed : List CommittedFix
  pushAttempted : Bool
  pushOk : Bool
  deriving DecidableEq, Repr

/-- Phase 4 of startOrchestrator (orchestrator.js lines 236-260): only
when any fixes were applied or the run succeeded (the guard at line
237) does it commit every currently FIXED ledger entry and attempt the
push; a push failure is caught and only logged; the terminal status is
PASSED exactly when the last test run succeeded.  Otherwise — a FAILED
run with no applied fixes — it reports FAILED with no commit and no
push at all. -/
def phase4 (g : GitWorld) (allFixes : List AppliedFix) (isSuccess : Bool)
    (ledger : List Issue) : FinalReport :=
  if allFixes.length > 0 ∨ isSuccess = true then
    let fixedIssues := ledger.filter (fun e => decide (e.status = Status.FIXED))
    let committed := commitFixes g fixedIssues
    let pushOk := match g.pushResult with
      | Except.ok _ => true
      | Except.error _ => false
    { status := if isSuccess then "PASSED" else "FAILED",
      committed := committed, pushAttempted := true, pushOk := pushOk }
  else
    { status := "FAILED", committed := [], pushAttempted := false, pushOk := false }

/-- One repair attempt fails after the file-existence check: reading the
file, invoking the repair oracle on the read content, or writing the
returned content throws. -/
def repairFails (w : SolverWorld) (issue : Issue) : Prop :=
  (∃ m, w.readFile issue.file = Except.error m)
  ∨ (∃ c m, w.readFile issue.file = Except.ok c ∧ w.invoke issue c = Except.error m)
  ∨ (∃ c fc m, w.readFile issue.file = Except.ok c ∧ w.invoke issue c = Except.ok fc
       ∧ w.writeFile issue.file fc = Except.error m)

theorem updateIssueStatus_length (f t : String) (l : Nat) (s : Status) (now : String) :
    ∀ log : List Issue, (updateIssueStatus log f t l s now).length = log.length := by
  intro log
  induction log with
  | nil => rfl
  | cons e rest ih =>
    unfold updateIssueStatus
    split
    · simp
    · simpa using ih

/-- C4: in the Python runtime profile of a TESTING step, an
unused-import marker (F401) or a fatal interpreter syntax-error marker
(SyntaxError / E999) in the captured sandbox output forces the step's
verdict to failure, even when the sandbox reported success from a zero
exit code. -/
theorem python_output_markers_force_failure (succ : Bool) (out : String)
    (h : strIncludes out "F401" = true ∨ strIncludes out "SyntaxError" = true
       ∨ strIncludes out "E999" = true) :
    pythonRunPassed ⟨succ, out⟩ = false := by
  have hc : (⟨succ, out⟩ : SandboxResult).success = false
      ∨ strIncludes (⟨succ, out⟩ : SandboxResult).output "SyntaxError" = true
      ∨ strIncludes (⟨succ, out⟩ : SandboxResult).output "E999" = true
      ∨ strIncludes (⟨succ, out⟩ : SandboxResult).output "F401" = true := by
    rcases h with h | h | h
    · exact Or.inr (Or.inr (Or.inr h))
    · exact Or.inr (Or.inl h)
    · exact Or.inr (Or.inr (Or.inl h))
  unfold pythonRunPassed
  exact if_pos hc

theorem python_output_markers_force_failure_witness :
    pythonRunPassed ⟨true, "0 errors from pytest, flake8: x.py:1:1: F401 os imported but unused"⟩ = false :=
  python_output_markers_force_failure true
    "0 errors from pytest, flake8: x.py:1:1: F401 os imported but unused"
    (Or.inl (by decide))

/-- C6: the sandbox runner's returned success is exactly exit code zero,
and a thrown error in any of the four steps (create, start, transfer,
exec) is returned as a failure result carrying a descriptive message,
never propagated as an exception. -/
theorem sandbox_success_iff_exit_zero (w : SandboxWorld) :
    (w.createErr = none → w.startErr = none → w.transferErr = none → w.execErr = none →
      (runTestsInSandbox w).result = ⟨decide (w.exitCode = 0), w.execOutput⟩)
    ∧ (∀ m, w.createErr = some m →
        (runTestsInSandbox w).result = ⟨false, sandboxFailMsg m⟩)
    ∧ (∀ m, w.createErr = none → w.startErr = some m →
        (runTestsInSandbox w).result = ⟨false, sandboxFailMsg m⟩)
    ∧ (∀ m, w.createErr = none → w.startErr = none → w.transferErr = some m →
        (runTestsInSandbox w).result = ⟨false, sandboxFailMsg m⟩)
    ∧ (∀ m, w.createErr = none → w.startErr = none → w.transferErr = none →
        w.execErr = some m →
        (runTestsInSandbox w).result = ⟨false, sandboxFailMsg m⟩) := by
  refine ⟨?_, ?_, ?_, ?_, ?_⟩ <;> intros <;> simp_all [runTestsInSandbox]

theorem sandbox_success_iff_exit_zero_witness :
    (runTestsInSandbox ⟨none, none, none, none, 0, "all tests passed", none⟩).result
      = ⟨true, "all tests passed"⟩
    ∧ (runTestsInSandbox ⟨some "no docker daemon", none, none, none, 0, "", none⟩).result
      = ⟨false, "Sandbox execution failed: no docker daemon"⟩ :=
  ⟨(sandbox_success_iff_exit_zero ⟨none, none, none, none, 0, "all tests passed", none⟩).1
      rfl rfl rfl rfl,
   (sandbox_success_iff_exit_zero ⟨some "no docker daemon", none, none, none, 0, "", none⟩).2.1
      "no docker daemon" rfl⟩

/-- C7: whenever the container was created, teardown runs exactly once
on every exit path, and the outcome of the teardown itself (including a
thrown cleanup error) never changes the result returned to the caller. -/
theorem sandbox_teardown_once (w : SandboxWorld) (h : w.createErr = none) :
    (runTestsInSandbox w).teardowns = 1
    ∧ ∀ e, (runTestsInSandbox { w with cleanupErr := e }).result
          = (runTestsInSandbox w).result
        ∧ (runTestsInSandbox { w with cleanupErr := e }).teardowns
          = (runTestsInSandbox w).teardowns := by
  refine ⟨by simp [runTestsInSandbox, h], fun e => ⟨?_, ?_⟩⟩ <;>
    simp [runTestsInSandbox, h]

theorem sandbox_teardown_once_witness :
    (runTestsInSandbox ⟨none, none, some "tar stream broke", none, 0, "", none⟩).teardowns = 1
    ∧ (runTestsInSandbox ⟨none, none, some "tar stream broke", none, 0, "",
          some "remove failed"⟩).result
      = (runTestsInSandbox ⟨none, none, some "tar stream broke", none, 0, "", none⟩).result :=
  ⟨(sandbox_teardown_once ⟨none, none, some "tar stream broke", none, 0, "", none⟩ rfl).1,
   ((sandbox_teardown_once ⟨none, none, some "tar stream broke", none, 0, "", none⟩ rfl).2
      (some "remove failed")).1⟩

/-- C8: in a REPAIRING batch, a missing target file marks the issue
FAILED_FILE_NOT_FOUND and the batch continues with the remaining
issues; any failure of the repair oracle call or of applying its
content marks the issue FAILED_GENERATION and the batch continues; and
the solver never drops ledger entries. -/
theorem solver_marks_and_continues (w : SolverWorld) (x : Issue)
    (rest : List Issue) (log : List Issue) (now : String) :
    (w.fileExists x.file = false →
      runSolver w (x :: rest) log now
        = runSolver w rest
            (updateIssueStatus log x.file x.type x.line Status.FAILED_FILE_NOT_FOUND now) now)
    ∧ (w.fileExists x.file = true → repairFails w x →
      runSolver w (x :: rest) log now
        = runSolver w rest
            (updateIssueStatus log x.file x.type x.line Status.FAILED_GENERATION now) now)
    ∧ (∀ issues start : List Issue, ((runSolver w issues start now).1).length = start.length) := by
  refine ⟨fun h => by simp [runSolver, h], fun h hf => ?_, fun issues => ?_⟩
  · rcases hf with ⟨m, hm⟩ | ⟨c, m, hc, hm⟩ | ⟨c, fc, m, hc, hfc, hm⟩
    · simp [runSolver, h, hm]
    · simp [runSolver, h, hc, hm]
    · simp [runSolver, h, hc, hfc, hm]
  · induction issues with
    | nil => intro start; rfl
    | cons y ys ih =>
      intro start
      unfold runSolver
      split
      · rw [ih]; exact updateIssueStatus_length _ _ _ _ _ _
      · split
        · rw [ih]; exact updateIssueStatus_length _ _ _ _ _ _
        · split
          · rw [ih]; exact updateIssueStatus_length _ _ _ _ _ _
          · split
            · rw [ih]; exact updateIssueStatus_length _ _ _ _ _ _
            · simp only []
              rw [ih]
              exact updateIssueStatus_length _ _ _ _ _ _

theorem solver_marks_and_continues_witness :
    runSolver
        ⟨fun _ => false, fun f => Except.ok f, fun _ c => Except.ok c, fun _ _ => Except.ok ()⟩
        [⟨"gone.py", "SYNTAX", 3, "missing colon", Status.OPEN, 1, none⟩]
        [⟨"gone.py", "SYNTAX", 3, "missing colon", Status.OPEN, 1, none⟩] "T"
      = runSolver
          ⟨fun _ => false, fun f => Except.ok f, fun _ c => Except.ok c, fun _ _ => Except.ok ()⟩
          []
          (updateIssueStatus
            [⟨"gone.py", "SYNTAX", 3, "missing colon", Status.OPEN, 1, none⟩]
            "gone.py" "SYNTAX" 3 Status.FAILED_FILE_NOT_FOUND "T") "T" :=
  (solver_marks_and_continues
      ⟨fun _ => false, fun f => Except.ok f, fun _ c => Except.ok c, fun _ _ => Except.ok ()⟩
      ⟨"gone.py", "SYNTAX", 3, "missing colon", Status.OPEN, 1, none⟩
      [] [⟨"gone.py", "SYNTAX", 3, "missing colon", Status.OPEN, 1, none⟩] "T").1 rfl

theorem healIters_cycles_le (o : LoopOracle) :
    ∀ (l : List Nat) (st : RunState), (healIters o l st).cycles ≤ st.cycles + l.length := by
  intro l
  induction l with
  | nil => intro st; simp [healIters]
  | cons i rest ih =>
    intro st
    simp only [healIters]
    split
    · simp
    · split
      · simp
      · split
        · simp
        · refine le_trans (ih _) ?_
          simp
          omega

theorem healIters_counter (o : LoopOracle) :
    ∀ (n i0 : Nat) (st : RunState), st.cycles + 1 = i0 → st.iterations = st.cycles →
      (healIters o (iterRange i0 n) st).iterations
        = (healIters o (iterRange i0 n) st).cycles := by
  intro n
  induction n with
  | zero => intro i0 st h1 h2; simpa [iterRange, healIters] using h2
  | succ k ih =>
    intro i0 st h1 h2
    simp only [iterRange, healIters]
    split
    · simp [← h1]
    · split
      · simp [← h1]
      · split
        · simp [← h1]
        · exact ih (i0 + 1) _ (by simp [← h1]) (by simp [← h1])

/-- C3: for every behavior of the diagnostic and repair collaborators,
the healing loop executes at most MAX_ITER = 6 test-diagnose-repair
cycles before terminating, and the reported iteration counter equals
the number of cycles executed (it is incremented exactly once per
cycle). -/
theorem healing_loop_ceiling (o : LoopOracle) :
    (healLoop o initState).cycles ≤ 6
    ∧ (healLoop o initState).iterations = (healLoop o initState).cycles
    ∧ MAX_ITER = 6 := by
  refine ⟨?_, ?_, rfl⟩
  · have h := healIters_cycles_le o (iterRange 1 MAX_ITER) initState
    have hl : (iterRange 1 MAX_ITER).length = 6 := rfl
    simpa [healLoop, initState, hl] using h
  · exact healIters_counter o MAX_ITER 1 initState rfl rfl

theorem matchesFixed_iff (d : Discovered) (e : Issue) :
    matchesFixed d e = true ↔ issueKey e ∈ discKeys d ∧ e.status = Status.FIXED := by
  simp [matchesFixed]

theorem reopenIssue_key (e : Issue) : issueKey (reopenIssue e) = issueKey e := rfl

theorem reopenScan_eq_some (d : Discovered) :
    ∀ {L : List Issue} {r : Issue} {L' : List Issue},
      reopenScan d L = some (r, L') →
      ∃ l1 e l2, L = l1 ++ e :: l2 ∧ (∀ x ∈ l1, matchesFixed d x = false)
        ∧ matchesFixed d e = true ∧ r = reopenIssue e
        ∧ L' = l1 ++ reopenIssue e :: l2 := by
  intro L
  induction L with
  | nil => intro r L' h; simp [reopenScan] at h
  | cons e rest ih =>
    intro r L' h
    by_cases hm : matchesFixed d e = true
    · simp only [reopenScan, if_pos hm, Option.some.injEq, Prod.mk.injEq] at h
      exact ⟨[], e, rest, rfl, by simp, hm, h.1.symm, by simp [h.2.symm]⟩
    · simp only [reopenScan, if_neg hm] at h
      cases hrec : reopenScan d rest with
      | none => rw [hrec] at h; simp at h
      | some p =>
        rw [hrec] at h
        obtain ⟨r0, rest'⟩ := p
        simp only [Option.some.injEq, Prod.mk.injEq] at h
        obtain ⟨l1, e0, l2, hL, hl1, he0, hr0, hrest'⟩ := ih hrec
        refine ⟨e :: l1, e0, l2, by simp [hL], ?_, he0, by rw [← h.1, hr0], ?_⟩
        · intro x hx
          rcases List.mem_cons.mp hx with hx | hx
          · subst hx; exact Bool.not_eq_true _ ▸ (by simpa using hm)
          · exact hl1 x hx
        · rw [← h.2, hrest']
          simp

theorem reopenScan_eq_none (d : Discovered) :
    ∀ {L : List Issue}, reopenScan d L = none → ∀ x ∈ L, matchesFixed d x = false := by
  intro L
  induction L with
  | nil => intro _ x hx; simp at hx
  | cons e rest ih =>
    intro h x hx
    by_cases hm : matchesFixed d e = true
    · simp [reopenScan, hm] at h
    · simp only [reopenScan, if_neg hm] at h
      rcases List.mem_cons.mp hx with hx | hx
      · subst hx; simpa using hm
      · cases hrec : reopenScan d rest with
        | none => exact ih hrec x hx
        | some p => rw [hrec] at h; obtain ⟨a, b⟩ := p; simp at h

theorem reopenScan_none_of (d : Discovered) :
    ∀ {L : List Issue}, (∀ x ∈ L, matchesFixed d x = false) → reopenScan d L = none := by
  intro L
  induction L with
  | nil => intro _; rfl
  | cons e rest ih =>
    intro h
    have he : matchesFixed d e = false := h e (List.mem_cons_self e rest)
    have hrest : reopenScan d rest = none :=
      ih (fun x hx => h x (List.mem_cons_of_mem e hx))
    simp [reopenScan, he, hrest]

theorem reopenScan_keys (d : Discovered) {L : List Issue} {r : Issue} {L' : List Issue}
    (h : reopenScan d L = some (r, L')) : L'.map issueKey = L.map issueKey := by
  obtain ⟨l1, e, l2, hL, _, _, _, hL'⟩ := reopenScan_eq_some d h
  subst hL; subst hL'
  simp [reopenIssue_key]

theorem reopenScan_mem_of_ne (d : Discovered) {L : List Issue} {r : Issue}
    {L' : List Issue} (h : reopenScan d L = some (r, L')) {x : Issue}
    (hx : x ∈ L) (hne : x.status ≠ Status.FIXED) : x ∈ L' := by
  obtain ⟨l1, e, l2, hL, _, he, _, hL'⟩ := reopenScan_eq_some d h
  subst hL; subst hL'
  have hxe : x ≠ e := by
    intro hxe
    exact hne (hxe ▸ ((matchesFixed_iff d e).mp he).2)
  rcases List.mem_append.mp hx with hx | hx
  · exact List.mem_append.mpr (Or.inl hx)
  · rcases List.mem_cons.mp hx with hx | hx
    · exact absurd hx hxe
    · exact List.mem_append.mpr (Or.inr (List.mem_cons_of_mem _ hx))

theorem appendNew_mem (iter : Nat) (ks : List String) :
    ∀ (ns : List Discovered) (issues : List Issue) {x : Issue},
      x ∈ issues → x ∈ appendNew iter ks issues ns := by
  intro ns
  induction ns with
  | nil => intro issues x hx; simpa [appendNew] using hx
  | cons n rest ih =>
    intro issues x hx
    by_cases hk : discKey n ∈ ks
    · simpa [appendNew, hk] using ih issues hx
    · simp only [appendNew, if_neg hk]
      exact ih _ (List.mem_append.mpr (Or.inl hx))

theorem mergePass_keys (a : List String) :
    ∀ (ds : List Discovered) (st : MergeState),
      (mergePass a st ds).issues.map issueKey = st.issues.map issueKey := by
  intro ds
  induction ds with
  | nil => intro st; rfl
  | cons d rest ih =>
    intro st
    cases hscan : reopenScan d st.issues with
    | none =>
      simp only [mergePass, hscan]
      split
      · exact ih st
      · exact ih _
    | some p =>
      obtain ⟨r, issues'⟩ := p
      simp only [mergePass, hscan]
      rw [ih _]
      exact reopenScan_keys d hscan

theorem mergePass_reopen_preserved (a : List String) (d : Discovered) :
    ∀ (ds : List Discovered) (st : MergeState),
      (∃ r, r ∈ st.issues ∧ r ∈ st.reopened ∧ issueKey r ∈ discKeys d
        ∧ r.status = Status.OPEN ∧ ∃ s, r.description = s ++ reopenNote) →
      ∃ r, r ∈ (mergePass a st ds).issues ∧ r ∈ (mergePass a st ds).reopened
        ∧ issueKey r ∈ discKeys d ∧ r.status = Status.OPEN
        ∧ ∃ s, r.description = s ++ reopenNote := by
  intro ds
  induction ds with
  | nil => intro st h; exact h
  | cons d' rest ih =>
    intro st h
    obtain ⟨r, hri, hrr, hk, hs, hdesc⟩ := h
    cases hscan : reopenScan d' st.issues with
    | none =>
      simp only [mergePass, hscan]
      split
      · exact ih st ⟨r, hri, hrr, hk, hs, hdesc⟩
      · exact ih _ ⟨r, hri, hrr, hk, hs, hdesc⟩
    | some p =>
      obtain ⟨r0, issues'⟩ := p
      simp only [mergePass, hscan]
      refine ih _ ⟨r, ?_, ?_, hk, hs, hdesc⟩
      · exact reopenScan_mem_of_ne d' hscan hri (by simp [hs])
      · exact List.mem_append.mpr (Or.inl hrr)

theorem mergePass_reopens (a : List String) (d : Discovered) :
    ∀ (ds : List Discovered) (st : MergeState), d ∈ ds →
      (∃ e, e ∈ st.issues ∧ matchesFixed d e = true) →
      ∃ r, r ∈ (mergePass a st ds).issues ∧ r ∈ (mergePass a st ds).reopened
        ∧ issueKey r ∈ discKeys d ∧ r.status = Status.OPEN
        ∧ ∃ s, r.description = s ++ reopenNote := by
  intro ds
  induction ds with
  | nil => intro st hd; simp at hd
  | cons d' rest ih =>
    intro st hd hex
    obtain ⟨e, hei, hem⟩ := hex
    by_cases hdd : d = d'
    · subst hdd
      cases hscan : reopenScan d st.issues with
      | none =>
        exact absurd (reopenScan_eq_none d hscan e hei) (by simp [hem])
      | some p =>
        obtain ⟨r0, issues'⟩ := p
        simp only [mergePass, hscan]
        obtain ⟨l1, e0, l2, hL, _, he0, hr0, hL'⟩ := reopenScan_eq_some d hscan
        apply mergePass_reopen_preserved
        refine ⟨r0, ?_, ?_, ?_, ?_, ?_⟩
        · rw [hL', hr0]; exact List.mem_append.mpr (Or.inr (List.mem_cons_self _ _))
        · exact List.mem_append.mpr (Or.inr (List.mem_cons_self _ _))
        · rw [hr0, reopenIssue_key]; exact ((matchesFixed_iff d e0).mp he0).1
        · rw [hr0]; rfl
        · exact ⟨e0.description, by rw [hr0]; rfl⟩
    · have hd' : d ∈ rest := by
        rcases List.mem_cons.mp hd with h | h
        · exact absurd h hdd
        · exact h
      cases hscan : reopenScan d' st.issues with
      | none =>
        simp only [mergePass, hscan]
        split
        · exact ih st hd' ⟨e, hei, hem⟩
        · exact ih _ hd' ⟨e, hei, hem⟩
      | some p =>
        obtain ⟨r0, issues'⟩ := p
        simp only [mergePass, hscan]
        obtain ⟨l1, e0, l2, hL, _, he0, hr0, hL'⟩ := reopenScan_eq_some d' hscan
        by_cases hee : e = e0
        · subst hee
          apply mergePass_reopen_preserved
          refine ⟨r0, ?_, ?_, ?_, ?_, ?_⟩
          · rw [hL', hr0]; exact List.mem_append.mpr (Or.inr (List.mem_cons_self _ _))
          · exact List.mem_append.mpr (Or.inr (List.mem_cons_self _ _))
          · rw [hr0, reopenIssue_key]; exact ((matchesFixed_iff d e).mp hem).1
          · rw [hr0]; rfl
          · exact ⟨e.description, by rw [hr0]; rfl⟩
        · refine ih _ hd' ⟨e, ?_, hem⟩
          show e ∈ issues'
          rw [hL']
          rw [hL] at hei
          rcases List.mem_append.mp hei with h | h
          · exact List.mem_append.mpr (Or.inl h)
          · rcases List.mem_cons.mp h with h | h
            · exact absurd h hee
            · exact List.mem_append.mpr (Or.inr (List.mem_cons_of_mem _ h))

/-- C1: a discovered issue whose identity key (or line-0 fallback key)
matches a FIXED ledger entry causes, after the merge, an OPEN reopened
entry carrying that key, with the regression note appended to its
description, present both in the merged ledger and in the reopened
list — it is never silently dropped. -/
theorem merge_reopens_fixed (iter : Nat) (L : List Issue) (D : List Discovered)
    (d : Discovered) (hd : d ∈ D)
    (hex : ∃ e ∈ L, issueKey e ∈ discKeys d ∧ e.status = Status.FIXED) :
    ∃ r, r ∈ (mergeStep iter L D).issues ∧ r ∈ (mergeStep iter L D).reopened
      ∧ issueKey r ∈ discKeys d ∧ r.status = Status.OPEN
      ∧ ∃ s, r.description = s ++ reopenNote := by
  obtain ⟨e, he, hk, hs⟩ := hex
  have hpass := mergePass_reopens
    ((L.filter (fun e => decide (e.status ≠ Status.OPEN))).map issueKey) d D
    ⟨L, [], []⟩ hd ⟨e, he, (matchesFixed_iff d e).mpr ⟨hk, hs⟩⟩
  obtain ⟨r, hri, hrr, hrk, hrs, hrdesc⟩ := hpass
  exact ⟨r, appendNew_mem _ _ _ _ hri, hrr, hrk, hrs, hrdesc⟩

theorem merge_reopens_fixed_witness :
    ∃ r, r ∈ (mergeStep 2
        [⟨"src/a.py", "SYNTAX", 8, "missing colon", Status.FIXED, 1, some "t1"⟩]
        [⟨"src/a.py", "SYNTAX", 8, "missing colon"⟩]).issues
      ∧ r ∈ (mergeStep 2
          [⟨"src/a.py", "SYNTAX", 8, "missing colon", Status.FIXED, 1, some "t1"⟩]
          [⟨"src/a.py", "SYNTAX", 8, "missing colon"⟩]).reopened
      ∧ issueKey r ∈ discKeys ⟨"src/a.py", "SYNTAX", 8, "missing colon"⟩
      ∧ r.status = Status.OPEN ∧ ∃ s, r.description = s ++ reopenNote :=
  merge_reopens_fixed 2
    [⟨"src/a.py", "SYNTAX", 8, "missing colon", Status.FIXED, 1, some "t1"⟩]
    [⟨"src/a.py", "SYNTAX", 8, "missing colon"⟩]
    ⟨"src/a.py", "SYNTAX", 8, "missing colon"⟩ (by decide)
    ⟨⟨"src/a.py", "SYNTAX", 8, "missing colon", Status.FIXED, 1, some "t1"⟩,
      by decide, by decide, rfl⟩

/-- C2 fails as stated: (i) a single discovered batch containing the
same identity key twice is appended twice, because existingKeys is not
updated inside the append loop, so the ledger ends with two entries of
identical (file, type, line); (ii) merging a discovered issue whose
exact key already exists with status OPEN does not always leave the
ledger unchanged: its line-0 fallback key can match a FIXED entry,
which is then reopened. -/
theorem ledger_unique_keys_counterexample :
    (¬ ((mergeStep 1 [] [⟨"src/a.py", "LOGIC", 3, "off by one"⟩,
          ⟨"src/a.py", "LOGIC", 3, "off by one"⟩]).issues.map
            (fun e => (e.file, e.type, e.line))).Nodup)
    ∧ (mergeStep 2
          [⟨"src/f.py", "SYNTAX", 5, "x", Status.OPEN, 1, none⟩,
           ⟨"src/f.py", "SYNTAX", 0, "y", Status.FIXED, 1, some "t"⟩]
          [⟨"src/f.py", "SYNTAX", 5, "z"⟩]).issues
        ≠ [⟨"src/f.py", "SYNTAX", 5, "x", Status.OPEN, 1, none⟩,
           ⟨"src/f.py", "SYNTAX", 0, "y", Status.FIXED, 1, some "t"⟩] := by
  constructor
  · decide
  · decide

theorem newIssue_key (d : Discovered) (iter : Nat) :
    issueKey (newIssue d iter) = discKey d := rfl

theorem appendNew_nodup (iter : Nat) (eks : List String) :
    ∀ (ns : List Discovered) (extra : List String) (issues : List Issue),
      issues.map issueKey = eks ++ extra → (eks ++ extra).Nodup →
      (∀ n ∈ ns, discKey n ∉ extra) → (ns.map discKey).Nodup →
      ((appendNew iter eks issues ns).map issueKey).Nodup := by
  intro ns
  induction ns with
  | nil => intro extra issues hkeys hnd _ _; simpa [appendNew, hkeys] using hnd
  | cons n rest ih =>
    intro extra issues hkeys hnd hnotin hndks
    by_cases hk : discKey n ∈ eks
    · simp only [appendNew, if_pos hk]
      exact ih extra issues hkeys hnd
        (fun x hx => hnotin x (List.mem_cons_of_mem n hx))
        ((List.nodup_cons.mp (by simpa using hndks)).2)
    · simp only [appendNew, if_neg hk]
      have hkeys' : (issues ++ [newIssue n iter]).map issueKey
          = eks ++ (extra ++ [discKey n]) := by
        simp [hkeys, newIssue_key]
      have hnd' : (eks ++ (extra ++ [discKey n])).Nodup := by
        rw [← List.append_assoc]
        rw [List.nodup_append]
        refine ⟨hnd, List.nodup_singleton _, ?_⟩
        intro x hx hx'
        rcases List.mem_singleton.mp hx' with rfl
        rcases List.mem_append.mp hx with h | h
        · exact hk h
        · exact hnotin n (List.mem_cons_self n rest) h
      refine ih (extra ++ [discKey n]) _ hkeys' hnd' ?_ ?_
      · intro x hx hmem
        rcases List.mem_append.mp hmem with h | h
        · exact hnotin x (List.mem_cons_of_mem n hx) h
        · rcases List.mem_singleton.mp h with h
          have : discKey n ∉ rest.map discKey :=
            (List.nodup_cons.mp (by simpa using hndks)).1
          exact this (h ▸ List.mem_map_of_mem discKey hx)
      · exact (List.nodup_cons.mp (by simpa using hndks)).2

theorem mergePass_new_sublist (a : List String) :
    ∀ (ds : List Discovered) (st : MergeState),
      ∃ ns, (mergePass a st ds).newIssues = st.newIssues ++ ns
        ∧ List.Sublist ns ds := by
  intro ds
  induction ds with
  | nil => intro st; exact ⟨[], by simp [mergePass], List.nil_sublist _⟩
  | cons d rest ih =>
    intro st
    cases hscan : reopenScan d st.issues with
    | none =>
      simp only [mergePass, hscan]
      split
      · obtain ⟨ns, h1, h2⟩ := ih st
        exact ⟨ns, h1, List.Sublist.cons d h2⟩
      · obtain ⟨ns, h1, h2⟩ := ih { st with newIssues := st.newIssues ++ [d] }
        refine ⟨d :: ns, ?_, List.Sublist.cons₂ d h2⟩
        rw [h1]
        simp
    | some p =>
      obtain ⟨r, issues'⟩ := p
      simp only [mergePass, hscan]
      obtain ⟨ns, h1, h2⟩ := ih _
      exact ⟨ns, h1, List.Sublist.cons d h2⟩

theorem mergeStep_nodup (iter : Nat) (L : List Issue) (D : List Discovered)
    (hD : (D.map discKey).Nodup) (hL : (L.map issueKey).Nodup) :
    ((mergeStep iter L D).issues.map issueKey).Nodup := by
  have hkeys : (mergePass
      ((L.filter (fun e => decide (e.status ≠ Status.OPEN))).map issueKey)
      ⟨L, [], []⟩ D).issues.map issueKey = L.map issueKey :=
    mergePass_keys _ D ⟨L, [], []⟩
  obtain ⟨ns, hns, hsub⟩ := mergePass_new_sublist
    ((L.filter (fun e => decide (e.status ≠ Status.OPEN))).map issueKey) D ⟨L, [], []⟩
  have hns' : (mergePass
      ((L.filter (fun e => decide (e.status ≠ Status.OPEN))).map issueKey)
      ⟨L, [], []⟩ D).newIssues = ns := hns
  show ((appendNew iter
      ((mergePass ((L.filter (fun e => decide (e.status ≠ Status.OPEN))).map issueKey)
        ⟨L, [], []⟩ D).issues.map issueKey)
      (mergePass ((L.filter (fun e => decide (e.status ≠ Status.OPEN))).map issueKey)
        ⟨L, [], []⟩ D).issues
      (mergePass ((L.filter (fun e => decide (e.status ≠ Status.OPEN))).map issueKey)
        ⟨L, [], []⟩ D).newIssues).map issueKey).Nodup
  rw [hns']
  refine appendNew_nodup iter _ ns [] _ ?_ ?_ ?_ ?_
  · rw [List.append_nil]
  · rw [List.append_nil, hkeys]; exact hL
  · simp
  · exact hD.sublist (hsub.map discKey)

theorem mergeMany_nodup :
    ∀ (batches : List (Nat × List Discovered)) (L : List Issue),
      (∀ b ∈ batches, ((b.2).map discKey).Nodup) → ((L.map issueKey).Nodup) →
      ((mergeMany L batches).map issueKey).Nodup := by
  intro batches
  induction batches with
  | nil => intro L _ hL; exact hL
  | cons b rest ih =>
    intro L hb hL
    exact ih _ (fun x hx => hb x (List.mem_cons_of_mem b hx))
      (mergeStep_nodup b.1 L b.2 (hb b (List.mem_cons_self b rest)) hL)

theorem mergeStep_open_idempotent (i : Nat) (L : List Issue) (d : Discovered)
    (hopen : ∃ e ∈ L, issueKey e = discKey d ∧ e.status = Status.OPEN)
    (hnofix : ∀ e ∈ L, ¬(issueKey e ∈ discKeys d ∧ e.status = Status.FIXED)) :
    (mergeStep i L [d]).issues = L := by
  have hscan : reopenScan d L = none := by
    apply reopenScan_none_of
    intro x hx
    have := hnofix x hx
    rw [← matchesFixed_iff d x] at this
    exact Bool.not_eq_true _ ▸ (by simpa using this)
  obtain ⟨e, he, hk, _⟩ := hopen
  have hmem : discKey d ∈ L.map issueKey := hk ▸ List.mem_map_of_mem issueKey he
  unfold mergeStep
  simp only [mergePass, hscan]
  split
  · simp [mergePass, appendNew]
  · simp [mergePass, appendNew, hmem]

/-- C2 amended: the merge deduplicates against the existing ledger but
not within one discovered batch; provided every discovered batch has
pairwise-distinct identity keys, any sequence of merges preserves
uniqueness of ledger keys.  Merging a discovered issue whose exact key
already exists with status OPEN leaves the ledger unchanged provided no
FIXED entry matches the issue's exact or line-0 fallback key. -/
theorem ledger_unique_keys_amended :
    (∀ (batches : List (Nat × List Discovered)) (L : List Issue),
        (∀ b ∈ batches, ((b.2).map discKey).Nodup) → ((L.map issueKey).Nodup) →
        ((mergeMany L batches).map issueKey).Nodup)
    ∧ (∀ (i : Nat) (L : List Issue) (d : Discovered),
        (∃ e ∈ L, issueKey e = discKey d ∧ e.status = Status.OPEN) →
        (∀ e ∈ L, ¬(issueKey e ∈ discKeys d ∧ e.status = Status.FIXED)) →
        (mergeStep i L [d]).issues = L) :=
  ⟨mergeMany_nodup, mergeStep_open_idempotent⟩

theorem ledger_unique_keys_amended_witness :
    ((mergeMany []
        [(1, [⟨"src/a.py", "LOGIC", 3, "off by one"⟩]),
         (2, [⟨"src/a.py", "LOGIC", 3, "off by one"⟩])]).map issueKey).Nodup
    ∧ (mergeStep 2
        [⟨"src/a.py", "LOGIC", 3, "off by one", Status.OPEN, 1, none⟩]
        [⟨"src/a.py", "LOGIC", 3, "off by one"⟩]).issues
      = [⟨"src/a.py", "LOGIC", 3, "off by one", Status.OPEN, 1, none⟩] :=
  ⟨ledger_unique_keys_amended.1
      [(1, [⟨"src/a.py", "LOGIC", 3, "off by one"⟩]),
       (2, [⟨"src/a.py", "LOGIC", 3, "off by one"⟩])] []
      (by decide) (by decide),
   ledger_unique_keys_amended.2 2
      [⟨"src/a.py", "LOGIC", 3, "off by one", Status.OPEN, 1, none⟩]
      ⟨"src/a.py", "LOGIC", 3, "off by one"⟩
      ⟨⟨"src/a.py", "LOGIC", 3, "off by one", Status.OPEN, 1, none⟩,
        by decide, by decide, rfl⟩
      (by decide)⟩

theorem mergePass_mem_of_ne (a : List String) (x : Issue)
    (hx : x.status ≠ Status.FIXED) :
    ∀ (ds : List Discovered) (st : MergeState), x ∈ st.issues →
      x ∈ (mergePass a st ds).issues := by
  intro ds
  induction ds with
  | nil => intro st h; exact h
  | cons d rest ih =>
    intro st h
    cases hscan : reopenScan d st.issues with
    | none =>
      simp only [mergePass, hscan]
      split
      · exact ih st h
      · exact ih _ h
    | some p =>
      obtain ⟨r, issues'⟩ := p
      simp only [mergePass, hscan]
      exact ih _ (reopenScan_mem_of_ne d hscan h hx)

theorem mergePass_reopened_open (a : List String) :
    ∀ (ds : List Discovered) (st : MergeState) (r : Issue),
      r ∈ (mergePass a st ds).reopened → r ∈ st.reopened ∨ r.status = Status.OPEN := by
  intro ds
  induction ds with
  | nil => intro st r h; exact Or.inl h
  | cons d rest ih =>
    intro st r h
    cases hscan : reopenScan d st.issues with
    | none =>
      simp only [mergePass, hscan] at h
      split at h
      · exact ih _ r h
      · exact ih { st with newIssues := st.newIssues ++ [d] } r h
    | some p =>
      obtain ⟨r0, issues'⟩ := p
      simp only [mergePass, hscan] at h
      rcases ih _ r h with hmem | hopen
      · rcases List.mem_append.mp hmem with hmem | hmem
        · exact Or.inl hmem
        · have hr : r = r0 := List.mem_singleton.mp hmem
          obtain ⟨l1, e0, l2, _, _, _, hr0, _⟩ := reopenScan_eq_some d hscan
          right
          rw [hr, hr0]
          rfl
      · exact Or.inr hopen

theorem mergePass_new_not_addressed (a : List String) (d : Discovered)
    (ha : discKey d ∈ a) :
    ∀ (ds : List Discovered) (st : MergeState), d ∉ st.newIssues →
      d ∉ (mergePass a st ds).newIssues := by
  intro ds
  induction ds with
  | nil => intro st h; exact h
  | cons d' rest ih =>
    intro st h
    cases hscan : reopenScan d' st.issues with
    | none =>
      simp only [mergePass, hscan]
      split
      · exact ih st h
      · rename_i hnotin
        apply ih
        intro hmem
        rcases List.mem_append.mp hmem with hmem | hmem
        · exact h hmem
        · have hdd := List.mem_singleton.mp hmem
          subst hdd
          exact hnotin ha
    | some p =>
      obtain ⟨r, issues'⟩ := p
      simp only [mergePass, hscan]
      exact ih _ h

theorem appendNew_count (iter : Nat) (eks : List String) (k : String) (hk : k ∈ eks) :
    ∀ (ns : List Discovered) (issues : List Issue),
      ((appendNew iter eks issues ns).map issueKey).count k
        = (issues.map issueKey).count k := by
  intro ns
  induction ns with
  | nil => intro issues; rfl
  | cons n rest ih =>
    intro issues
    by_cases hn : discKey n ∈ eks
    · simp only [appendNew, if_pos hn]
      exact ih issues
    · simp only [appendNew, if_neg hn]
      rw [ih]
      have hne : issueKey (newIssue n iter) ≠ k := by
        rw [newIssue_key]
        intro hkk
        exact hn (hkk ▸ hk)
      simp [List.count_append, List.count_cons, hne]

/-- C10: a discovered issue whose identity key equals that of a ledger
entry in a FAILED_* terminal state is silently discarded by the merge:
the entry survives unchanged (it is not reopened), no entry with that
key is appended, and the discovered issue is recorded neither in the
new list nor in the reopened list. -/
theorem merge_discards_failed_rediscovery (iter : Nat) (L : List Issue)
    (D : List Discovered) (d : Discovered) (e : Issue)
    (hd : d ∈ D) (he : e ∈ L) (hkey : issueKey e = discKey d)
    (hst : e.status = Status.FAILED_FILE_NOT_FOUND
      ∨ e.status = Status.FAILED_GENERATION) :
    e ∈ (mergeStep iter L D).issues
    ∧ e ∉ (mergeStep iter L D).reopened
    ∧ ((mergeStep iter L D).issues.map issueKey).count (discKey d)
        = (L.map issueKey).count (discKey d)
    ∧ d ∉ (mergeStep iter L D).newIssues := by
  have hne : e.status ≠ Status.FIXED := by rcases hst with h | h <;> simp [h]
  have hnopen : e.status ≠ Status.OPEN := by rcases hst with h | h <;> simp [h]
  have ha : discKey d
      ∈ (L.filter (fun x => decide (x.status ≠ Status.OPEN))).map issueKey := by
    rw [← hkey]
    exact List.mem_map_of_mem issueKey (List.mem_filter.mpr ⟨he, by simpa using hnopen⟩)
  have hkeys : (mergePass
      ((L.filter (fun e => decide (e.status ≠ Status.OPEN))).map issueKey)
      ⟨L, [], []⟩ D).issues.map issueKey = L.map issueKey :=
    mergePass_keys _ D ⟨L, [], []⟩
  have hmemk : discKey d ∈ (mergePass
      ((L.filter (fun e => decide (e.status ≠ Status.OPEN))).map issueKey)
      ⟨L, [], []⟩ D).issues.map issueKey := by
    rw [hkeys, ← hkey]
    exact List.mem_map_of_mem issueKey he
  refine ⟨?_, ?_, ?_, ?_⟩
  · exact appendNew_mem _ _ _ _
      (mergePass_mem_of_ne _ e hne D ⟨L, [], []⟩ he)
  · intro hmem
    rcases mergePass_reopened_open _ D ⟨L, [], []⟩ e hmem with h | h
    · simp at h
    · exact hnopen h
  · show ((appendNew iter
        ((mergePass ((L.filter (fun e => decide (e.status ≠ Status.OPEN))).map issueKey)
          ⟨L, [], []⟩ D).issues.map issueKey)
        (mergePass ((L.filter (fun e => decide (e.status ≠ Status.OPEN))).map issueKey)
          ⟨L, [], []⟩ D).issues
        (mergePass ((L.filter (fun e => decide (e.status ≠ Status.OPEN))).map issueKey)
          ⟨L, [], []⟩ D).newIssues).map issueKey).count (discKey d)
      = (L.map issueKey).count (discKey d)
    rw [appendNew_count iter _ (discKey d) hmemk, hkeys]
  · exact mergePass_new_not_addressed _ d ha D ⟨L, [], []⟩ (by simp)

theorem merge_discards_failed_rediscovery_witness :
    (⟨"src/b.py", "IMPORT", 2, "ghost module", Status.FAILED_FILE_NOT_FOUND, 1,
        some "t"⟩ : Issue)
      ∈ (mergeStep 3
          [⟨"src/b.py", "IMPORT", 2, "ghost module", Status.FAILED_FILE_NOT_FOUND, 1,
              some "t"⟩]
          [⟨"src/b.py", "IMPORT", 2, "ghost module again"⟩]).issues
    ∧ (⟨"src/b.py", "IMPORT", 2, "ghost module", Status.FAILED_FILE_NOT_FOUND, 1,
          some "t"⟩ : Issue)
        ∉ (mergeStep 3
            [⟨"src/b.py", "IMPORT", 2, "ghost module", Status.FAILED_FILE_NOT_FOUND, 1,
                some "t"⟩]
            [⟨"src/b.py", "IMPORT", 2, "ghost module again"⟩]).reopened
    ∧ ((mergeStep 3
          [⟨"src/b.py", "IMPORT", 2, "ghost module", Status.FAILED_FILE_NOT_FOUND, 1,
              some "t"⟩]
          [⟨"src/b.py", "IMPORT", 2, "ghost module again"⟩]).issues.map issueKey).count
        (discKey ⟨"src/b.py", "IMPORT", 2, "ghost module again"⟩)
      = ([⟨"src/b.py", "IMPORT", 2, "ghost module", Status.FAILED_FILE_NOT_FOUND, 1,
            some "t"⟩].map issueKey).count
          (discKey ⟨"src/b.py", "IMPORT", 2, "ghost module again"⟩)
    ∧ (⟨"src/b.py", "IMPORT", 2, "ghost module again"⟩ : Discovered)
        ∉ (mergeStep 3
            [⟨"src/b.py", "IMPORT", 2, "ghost module", Status.FAILED_FILE_NOT_FOUND, 1,
                some "t"⟩]
            [⟨"src/b.py", "IMPORT", 2, "ghost module again"⟩]).newIssues :=
  merge_discards_failed_rediscovery 3
    [⟨"src/b.py", "IMPORT", 2, "ghost module", Status.FAILED_FILE_NOT_FOUND, 1, some "t"⟩]
    [⟨"src/b.py", "IMPORT", 2, "ghost module again"⟩]
    ⟨"src/b.py", "IMPORT", 2, "ghost module again"⟩
    ⟨"src/b.py", "IMPORT", 2, "ghost module", Status.FAILED_FILE_NOT_FOUND, 1, some "t"⟩
    (by decide) (by decide) (by decide) (Or.inl rfl)

/-- C5 fails on the code: updateIssueStatus stamps fixedAt on every
status update, so an issue resolved to FAILED_GENERATION (reachable by
one merge followed by one failing repair) carries a fixedAt timestamp
while its status is not FIXED. -/
theorem fixedAt_iff_fixed_counterexample :
    updateIssueStatus
        (mergeStep 1 [] [⟨"src/a.py", "LOGIC", 1, "bad loop"⟩]).issues
        "src/a.py" "LOGIC" 1 Status.FAILED_GENERATION "2026-02-03T04:05:06Z"
      = [⟨"src/a.py", "LOGIC", 1, "bad loop", Status.FAILED_GENERATION, 1,
          some "2026-02-03T04:05:06Z"⟩]
    ∧ Status.FAILED_GENERATION ≠ Status.FIXED := by
  constructor
  · decide
  · decide

/-- C5 amended: a status update (markResolved) stamps fixedAt with the
update timestamp whatever the outcome status is — FIXED and FAILED_*
alike — on the first ledger entry whose file, type and line match
exactly; every other entry is untouched. -/
theorem update_sets_fixedAt_always (f t : String) (l : Nat) (s : Status)
    (now : String) :
    ∀ log : List Issue, (∃ e ∈ log, e.file = f ∧ e.type = t ∧ e.line = l) →
      ∃ l1 e l2, log = l1 ++ e :: l2
        ∧ (∀ x ∈ l1, ¬(x.file = f ∧ x.type = t ∧ x.line = l))
        ∧ e.file = f ∧ e.type = t ∧ e.line = l
        ∧ updateIssueStatus log f t l s now
            = l1 ++ { e with status := s, fixedAt := some now } :: l2 := by
  intro log
  induction log with
  | nil => intro h; simp at h
  | cons e rest ih =>
    intro h
    by_cases hm : e.file = f ∧ e.type = t ∧ e.line = l
    · refine ⟨[], e, rest, rfl, by simp, hm.1, hm.2.1, hm.2.2, ?_⟩
      simp only [updateIssueStatus, if_pos hm]
      rfl
    · obtain ⟨x, hx, hxp⟩ := h
      have hx' : x ∈ rest := by
        rcases List.mem_cons.mp hx with hx | hx
        · exact absurd (hx ▸ hxp) hm
        · exact hx
      obtain ⟨l1, e0, l2, hlog, hl1, h1, h2, h3, heq⟩ := ih ⟨x, hx', hxp⟩
      refine ⟨e :: l1, e0, l2, by simp [hlog], ?_, h1, h2, h3, ?_⟩
      · intro y hy
        rcases List.mem_cons.mp hy with hy | hy
        · exact hy ▸ hm
        · exact hl1 y hy
      · simp only [updateIssueStatus, if_neg hm]
        simp [heq]

theorem update_sets_fixedAt_always_witness :
    ∃ l1 e l2,
      [(⟨"src/a.py", "LOGIC", 1, "bad loop", Status.OPEN, 1, none⟩ : Issue)]
          = l1 ++ e :: l2
        ∧ (∀ x ∈ l1, ¬(x.file = "src/a.py" ∧ x.type = "LOGIC" ∧ x.line = 1))
        ∧ e.file = "src/a.py" ∧ e.type = "LOGIC" ∧ e.line = 1
        ∧ updateIssueStatus
            [⟨"src/a.py", "LOGIC", 1, "bad loop", Status.OPEN, 1, none⟩]
            "src/a.py" "LOGIC" 1 Status.FAILED_GENERATION "T"
            = l1 ++ { e with status := Status.FAILED_GENERATION, fixedAt := some "T" } :: l2 :=
  update_sets_fixedAt_always "src/a.py" "LOGIC" 1 Status.FAILED_GENERATION "T"
    [⟨"src/a.py", "LOGIC", 1, "bad loop", Status.OPEN, 1, none⟩]
    ⟨⟨"src/a.py", "LOGIC", 1, "bad loop", Status.OPEN, 1, none⟩, by decide, by decide⟩

theorem commitFixes_all_ok (g : GitWorld)
    (hgit : ∀ f m, g.addAndCommit f m = Except.ok ()) :
    ∀ l : List Issue,
      commitFixes g l = l.map (fun e =>
        ⟨e.file, e.type, e.line, e.description, commitMsg e, "Fixed"⟩) := by
  intro l
  induction l with
  | nil => rfl
  | cons e rest ih =>
    simp only [commitFixes, hgit e.file (commitMsg e), List.map_cons, ih]

theorem commitFixes_push_irrel (g : GitWorld) (p : Except String Unit) :
    ∀ l : List Issue, commitFixes { g with pushResult := p } l = commitFixes g l := by
  intro l
  induction l with
  | nil => rfl
  | cons e rest ih =>
    simp only [commitFixes]
    cases hac : g.addAndCommit e.file (commitMsg e) with
    | ok u => simp [hac, ih]
    | error m => simp [hac, ih]

/-- C9 fails as stated: a run can reach DONE with terminal status
FAILED and no applied fixes (tests fail, the diagnostic merge yields
nothing, the loop breaks), and on that path the guard of phase 4
(orchestrator.js line 237) skips the push — and the commit loop —
entirely, so the branch is not pushed even though the commit and push
services would have succeeded. -/
theorem done_push_counterexample :
    (phase4 ⟨fun _ _ => Except.ok (), Except.ok ()⟩ [] false []).status = "FAILED"
    ∧ (phase4 ⟨fun _ _ => Except.ok (), Except.ok ()⟩ [] false []).pushAttempted
        = false := by
  constructor
  · rfl
  · rfl

/-- C9 amended: when any fix was applied or the run succeeded (the
phase-4 guard), every ledger entry currently FIXED is committed — one
commit per entry, with the message naming kind, file and truncated
description — and the branch push is attempted; a FAILED run with no
applied fixes skips commit and push entirely.  In all cases the
terminal status is PASSED exactly when the last test run succeeded,
and the push outcome changes neither the status nor the committed
list. -/
theorem done_commit_push_amended (g : GitWorld)
    (allFixes : List AppliedFix) (isSuccess : Bool) (ledger : List Issue)
    (hgit : ∀ f m, g.addAndCommit f m = Except.ok ()) :
    (allFixes.length > 0 ∨ isSuccess = true →
      (phase4 g allFixes isSuccess ledger).committed
          = (ledger.filter (fun e => decide (e.status = Status.FIXED))).map
              (fun e => ⟨e.file, e.type, e.line, e.description, commitMsg e, "Fixed"⟩)
        ∧ (phase4 g allFixes isSuccess ledger).pushAttempted = true)
    ∧ (¬(allFixes.length > 0 ∨ isSuccess = true) →
      (phase4 g allFixes isSuccess ledger).committed = []
        ∧ (phase4 g allFixes isSuccess ledger).pushAttempted = false)
    ∧ (phase4 g allFixes isSuccess ledger).status
        = (if isSuccess then "PASSED" else "FAILED")
    ∧ (∀ p, (phase4 { g with pushResult := p } allFixes isSuccess ledger).status
          = (phase4 g allFixes isSuccess ledger).status
        ∧ (phase4 { g with pushResult := p } allFixes isSuccess ledger).committed
          = (phase4 g allFixes isSuccess ledger).committed) := by
  by_cases hc : allFixes.length > 0 ∨ isSuccess = true
  · refine ⟨fun _ => ⟨?_, ?_⟩, fun hn => absurd hc hn, ?_, ?_⟩
    · simp only [phase4, if_pos hc]
      exact commitFixes_all_ok g hgit _
    · simp only [phase4, if_pos hc]
    · simp only [phase4, if_pos hc]
    · intro p
      constructor
      · simp only [phase4, if_pos hc]
      · simp only [phase4, if_pos hc]
        exact commitFixes_push_irrel g p _
  · have hfix : allFixes = [] ∧ isSuccess = false := by
      rcases not_or.mp hc with ⟨h1, h2⟩
      exact ⟨List.length_eq_zero.mp (Nat.eq_zero_of_not_pos h1),
        Bool.not_eq_true _ ▸ (by simpa using h2)⟩
    refine ⟨fun hp => absurd hp hc, fun _ => ⟨?_, ?_⟩, ?_, ?_⟩
    · simp [phase4, hfix.1, hfix.2]
    · simp [phase4, hfix.1, hfix.2]
    · simp [phase4, hfix.1, hfix.2]
    · intro p
      constructor <;> simp [phase4, hfix.1, hfix.2]

theorem done_commit_push_amended_witness :
    ((phase4
        ⟨fun _ _ => Except.ok (), Except.error "remote rejected"⟩
        [⟨"src/a.py", "LOGIC", "bad loop", 1, "APPLIED"⟩] false
        [⟨"src/a.py", "LOGIC", 1, "bad loop", Status.FIXED, 1, some "t"⟩]).committed
      = [⟨"src/a.py", "LOGIC", 1, "bad loop",
          commitMsg ⟨"src/a.py", "LOGIC", 1, "bad loop", Status.FIXED, 1, some "t"⟩,
          "Fixed"⟩]
      ∧ (phase4
          ⟨fun _ _ => Except.ok (), Except.error "remote rejected"⟩
          [⟨"src/a.py", "LOGIC", "bad loop", 1, "APPLIED"⟩] false
          [⟨"src/a.py", "LOGIC", 1, "bad loop", Status.FIXED, 1, some "t"⟩]).pushAttempted
        = true)
    ∧ (phase4
        ⟨fun _ _ => Except.ok (), Except.error "remote rejected"⟩
        [⟨"src/a.py", "LOGIC", "bad loop", 1, "APPLIED"⟩] false
        [⟨"src/a.py", "LOGIC", 1, "bad loop", Status.FIXED, 1, some "t"⟩]).status
      = "FAILED" :=
  ⟨(done_commit_push_amended
      ⟨fun _ _ => Except.ok (), Except.error "remote rejected"⟩
      [⟨"src/a.py", "LOGIC", "bad loop", 1, "APPLIED"⟩] false
      [⟨"src/a.py", "LOGIC", 1, "bad loop", Status.FIXED, 1, some "t"⟩]
      (fun _ _ => rfl)).1 (Or.inl (by decide)),
   (done_commit_push_amended
      ⟨fun _ _ => Except.ok (), Except.error "remote rejected"⟩
      [⟨"src/a.py", "LOGIC", "bad loop", 1, "APPLIED"⟩] false
      [⟨"src/a.py", "LOGIC", 1, "bad loop", Status.FIXED, 1, some "t"⟩]
      (fun _ _ => rfl)).2.2.1⟩
